import Mathlib

/-!
Shallow embedding of the wasm-life Game-of-Life engine (`src/lib.rs`).

The Rust code is a single `Universe` struct (u32 `width`, u32 `height`,
`Vec<Cell>` in row-major order) with operations `new`, `set_width`,
`set_height`, `tick`, `get_index`, `live_neighbor_count`, `toggle_cell`,
`inject_random_cells`, `set_cells`, plus the free function `wrap_for_size`.

Modelling conventions:
* u32 / i32 / usize values are `Nat` / `Int` with explicit reduction
  `% 2^32` (resp. two's-complement wrap to `[-2^31, 2^31)`) exactly where
  the Rust operation can overflow; release-build wrapping semantics.
  The target is wasm32, so `usize` is 32 bits wide.
* `Vec` indexing that can panic (`self.cells[index]`) is modelled with
  `Option`: `none` is the panic.  Reads inside `tick` and
  `live_neighbor_count` use `getD` with default `Cell.Dead`; every use the
  theorems touch is proved in-bounds, so the default is never observed.
* The JS random-boolean source is an injected capability: a function
  `rand : Nat → Cell` consumed in call order via a counter.
-/

namespace WasmLife

/-- The modulus 2^32 of u32 / wasm32-usize arithmetic. -/
def u32Mod : Nat := 4294967296

/-- Two's-complement reinterpretation of an integer as an i32 value
(the effect of Rust's wrapping i32 arithmetic / `as i32` casts). -/
def toI32 (n : Int) : Int := (n + 2147483648) % 4294967296 - 2147483648

/-- Rust `enum Cell { Dead = 0, Alive = 1 }`. -/
inductive Cell where
  | Dead : Cell
  | Alive : Cell
deriving DecidableEq, Repr

/-- Rust `Cell::toggle`. -/
def Cell.toggle : Cell → Cell
  | Cell.Dead => Cell.Alive
  | Cell.Alive => Cell.Dead

/-- Rust `cell as u8` (the `repr(u8)` discriminant). -/
def Cell.toNat : Cell → Nat
  | Cell.Dead => 0
  | Cell.Alive => 1

/-- Rust `fn wrap_for_size(i: i32, size: u32) -> u32 { let s = size as i32; ((s + i) % s) as u32 }`.
Rust `%` on i32 is the truncating remainder (`Int.tmod`); the final
`as u32` reinterprets the i32 result mod `2^32`. -/
def wrap_for_size (i : Int) (size : Nat) : Nat :=
  (((toI32 ((toI32 (size : Int)) + i)).tmod (toI32 (size : Int))) % (4294967296 : Int)).toNat

/-- Rust `struct Universe { width: u32, height: u32, cells: Vec<Cell> }`. -/
structure Universe where
  width : Nat
  height : Nat
  cells : List Cell
deriving DecidableEq, Repr

/-- Well-formed grid: the flat array has exactly `width * height` cells and
that cell count fits in the wasm32 `usize` (a `Vec` length always does). -/
def Universe.wf (u : Universe) : Prop :=
  u.cells.length = u.width * u.height ∧ u.width * u.height < u32Mod

instance (u : Universe) : Decidable u.wf := by
  unfold Universe.wf; infer_instance

/-- Rust `Universe::new()`: fixed 200 × 100 grid, parity seeding
`if i % 2 == 0 || i % 7 == 0 { Alive } else { Dead }`. -/
def Universe.new : Universe :=
  { width := 200
    height := 100
    cells := (List.range (200 * 100)).map (fun i =>
      if i % 2 = 0 ∨ i % 7 = 0 then Cell.Alive else Cell.Dead) }

/-- Rust `Universe::set_width`: stores the new width, then reallocates
`(0..width * self.height())` cells, all `Dead`.  The u32 product wraps. -/
def Universe.set_width (u : Universe) (width : Nat) : Universe :=
  { u with width := width
           cells := List.replicate ((width * u.height) % u32Mod) Cell.Dead }

/-- Rust `Universe::set_height`: stores the new height, then reallocates
`(0..self.width * height)` cells, all `Dead`.  The u32 product wraps. -/
def Universe.set_height (u : Universe) (height : Nat) : Universe :=
  { u with height := height
           cells := List.replicate ((u.width * height) % u32Mod) Cell.Dead }

/-- Rust `Universe::get_index`: `(row * self.width + col) as usize`, u32
arithmetic, so the flat index is reduced mod `2^32`. -/
def Universe.getIndex (u : Universe) (row col : Nat) : Nat :=
  (row * u.width + col) % u32Mod

/-- Rust `Universe::live_neighbor_count`: iterates `row_delta` over
`[self.height - 1, 0, 1]` and `col_delta` over `[self.width - 1, 0, 1]`,
skipping the iteration in which both deltas are the value `0`, and sums
`self.cells[get_index((row + row_delta) % height, (col + col_delta) % width)] as u8`.
The u32 additions wrap mod `2^32` before the reduction mod the dimension. -/
def Universe.liveNeighborCount (u : Universe) (row col : Nat) : Nat :=
  [u.height - 1, 0, 1].foldl (fun count rowDelta =>
    [u.width - 1, 0, 1].foldl (fun cnt colDelta =>
      if rowDelta = 0 ∧ colDelta = 0 then cnt
      else cnt + (u.cells.getD
        (u.getIndex (((row + rowDelta) % u32Mod) % u.height)
                    (((col + colDelta) % u32Mod) % u.width)) Cell.Dead).toNat)
      count) 0

/-- The per-cell transition of `Universe::tick`, the Rust `match` on
`(cell, live_neighbors)` with its guards taken in order. -/
def nextCellState : Cell → Nat → Cell
  | Cell.Alive, living =>
      if living < 2 then Cell.Dead
      else if living > 3 then Cell.Dead
      else Cell.Alive
  | Cell.Dead, living =>
      if living = 3 then Cell.Alive else Cell.Dead

/-- The value `Universe::tick` writes for cell `(row, col)`: the rule applied
to the frozen pre-tick cell and its frozen pre-tick neighbor count. -/
def tickVal (u : Universe) (row col : Nat) : Cell :=
  nextCellState (u.cells.getD (u.getIndex row col) Cell.Dead)
    (u.liveNeighborCount row col)

/-- The inner `for col in 0..self.width` loop of `tick`, writing into the
`next_state` accumulator while reading only the frozen `u`. -/
def innerPass (u : Universe) (row : Nat) (acc : List Cell) : List Cell :=
  (List.range u.width).foldl
    (fun a col => a.set (u.getIndex row col) (tickVal u row col)) acc

/-- Rust `Universe::tick`: clones `self.cells` into `next_state`, runs the two
nested loops computing every `next_cell_state` from the frozen `self.cells`,
then replaces `self.cells` with `next_state`. -/
def Universe.tick (u : Universe) : Universe :=
  { u with cells := (List.range u.height).foldl (fun a row => innerPass u row a) u.cells }

/-- Rust `Universe::toggle_cell`: `self.cells[self.get_index(row, col)].toggle()`.
`none` models the `Vec` index panic when the flat index is out of range. -/
def Universe.toggleCell (u : Universe) (row col : Nat) : Option Universe :=
  match u.cells.get? (u.getIndex row col) with
  | some c => some { u with cells := u.cells.set (u.getIndex row col) c.toggle }
  | none => none

/-- Rust `Universe::set_cells`: for each listed `(row, col)` sets
`self.cells[self.get_index(row, col)] = Cell::Alive`; `none` models the
indexing panic on the first out-of-range flat index. -/
def Universe.setCells (u : Universe) (l : List (Nat × Nat)) : Option Universe :=
  l.foldlM (fun v rc =>
    if v.getIndex rc.1 rc.2 < v.cells.length then
      some { v with cells := v.cells.set (v.getIndex rc.1 rc.2) Cell.Alive }
    else none) u

/-- The i32 iterator `-size..size`: empty when `size <= 0`, otherwise the
values `-size, -size + 1, …, size - 1`.  (For `size = i32::MIN` the Rust
`-size` wraps back to `i32::MIN` and the range is empty as well, matching
`(2 * size).toNat = 0`.) -/
def deltaRange (size : Int) : List Int :=
  (List.range (2 * size).toNat).map (fun k : Nat => -size + (k : Int))

/-- The inner-loop body of `inject_random_cells`: wraps the row offset via
`wrap_for_size` with the current height, indexes via `get_index` with the
column offset computed by the enclosing outer iteration, and assigns the
next value of the random source (`none` models the `Vec` indexing panic). -/
def injectStep (rand : Nat → Cell) (row : Nat) (colOff : Nat)
    (st2 : Universe × Nat) (rowDelta : Int) : Option (Universe × Nat) :=
  if st2.1.getIndex (wrap_for_size (toI32 ((row : Int) + rowDelta)) st2.1.height)
      colOff < st2.1.cells.length then
    some (Universe.mk st2.1.width st2.1.height
      (st2.1.cells.set
        (st2.1.getIndex (wrap_for_size (toI32 ((row : Int) + rowDelta)) st2.1.height)
          colOff)
        (rand st2.2)), st2.2 + 1)
  else none

/-- Rust `Universe::inject_random_cells(row: u16, col: u16, size: i32)`: the outer
loop runs `col_delta` over `-size..size` and wraps
`col as i32 + col_delta` (i32 addition) with `wrap_for_size` and the current
width; the inner loop does the same for rows, and assigns the freshly drawn
random cell at `get_index(row_off, col_off)`.  The counter threads the
injected random source in call order. -/
def Universe.injectRandomCells (u : Universe) (rand : Nat → Cell)
    (row col : Nat) (size : Int) : Option Universe :=
  ((deltaRange size).foldlM (fun (st : Universe × Nat) colDelta =>
      (deltaRange size).foldlM
        (injectStep rand row (wrap_for_size (toI32 ((col : Int) + colDelta)) st.1.width))
        st)
    ((u, 0) : Universe × Nat)).map (fun st => st.1)

/-- Rust `Universe::get_cells`: read-only view of the flat array. -/
def Universe.getCells (u : Universe) : List Cell := u.cells

/-- Spec-side definition (for the refinement comparison in C2), following
the spec's words: the Alive-indicator (`0` or `1`) of the neighbor at
offset `(dr, dc)` from `(row, col)`, "the neighbor coordinate wraps modulo
`height` / `width` respectively", i.e. `(center + offset) mod dimension`
with floor semantics (`Int.emod`), read at the row-major flat position. -/
def specNb (u : Universe) (row col : Nat) (dr dc : Int) : Nat :=
  (u.cells.getD
    ((((row : Int) + dr) % (u.height : Int)).toNat * u.width
      + (((col : Int) + dc) % (u.width : Int)).toNat) Cell.Dead).toNat

/-- Spec-side definition (for the refinement comparison in C2), following
the spec's words: "the number of `Alive` cells among the 8
toroidally-adjacent positions. For each of the 3×3 offsets excluding
`(0,0)`" — the sum of the 8 wrapped Alive-indicators. -/
def specLiveNeighborCount (u : Universe) (row col : Nat) : Nat :=
  specNb u row col (-1) (-1) + specNb u row col (-1) 0 + specNb u row col (-1) 1 +
  specNb u row col 0 (-1) + specNb u row col 0 1 +
  specNb u row col 1 (-1) + specNb u row col 1 0 + specNb u row col 1 1

/-- The flat positions `inject_random_cells(row, col, size)` is meant to
write: the floor-modulo-wrapped targets `(center + offset) mod dimension`
over all offset pairs in `[-size, size) × [-size, size)`. -/
def injectTarget (u : Universe) (row col : Nat) (size : Int) (j : Nat) : Prop :=
  ∃ cd ∈ deltaRange size, ∃ rd ∈ deltaRange size,
    j = (((row : Int) + rd) % (u.height : Int)).toNat * u.width
        + (((col : Int) + cd) % (u.width : Int)).toNat

/-- One state-mutating engine operation (the caller-facing mutators of the
`Universe`); `toggle_cell`, `set_cells` and `inject_random_cells` steps
require the call not to panic, and the resize parameters are u32 values. -/
inductive Step : Universe → Universe → Prop where
  | tick (u : Universe) : Step u u.tick
  | toggle (u : Universe) (row col : Nat) (v : Universe) :
      u.toggleCell row col = some v → Step u v
  | set_cells (u : Universe) (l : List (Nat × Nat)) (v : Universe) :
      u.setCells l = some v → Step u v
  | inject (u : Universe) (rand : Nat → Cell) (row col : Nat) (size : Int)
      (v : Universe) : u.injectRandomCells rand row col size = some v → Step u v
  | width_change (u : Universe) (w : Nat) : w < u32Mod → Step u (u.set_width w)
  | height_change (u : Universe) (h : Nat) : h < u32Mod → Step u (u.set_height h)

/-- States reachable from `Universe::new()` by any sequence of engine
operations (the read accessors and `text_render` take `&self` and cannot
change the state, so they induce no steps). -/
inductive Reachable : Universe → Prop where
  | new : Reachable Universe.new
  | step (u v : Universe) : Reachable u → Step u v → Reachable v

/-! Section: Generic fold lemmas -/

/-- A left fold preserves any invariant preserved by each step. -/
theorem foldl_inv {α σ : Type} (f : σ → α → σ) (Q : σ → Prop)
    (hstep : ∀ s a, Q s → Q (f s a)) :
    ∀ (l : List α) (s : σ), Q s → Q (l.foldl f s) := by
  intro l
  induction l with
  | nil => intro s hs; simpa using hs
  | cons a t ih => intro s hs; simpa using ih (f s a) (hstep s a hs)

/-- A successful `Option`-valued left fold relates its start state to its
result by any reflexive and transitive relation that each step respects. -/
theorem foldlM_option_inv {α σ : Type} (f : σ → α → Option σ) (Q : σ → σ → Prop)
    (hrefl : ∀ s, Q s s) (htrans : ∀ a b c, Q a b → Q b c → Q a c)
    (hstep : ∀ s a t, f s a = some t → Q s t) :
    ∀ (l : List α) (s t : σ), l.foldlM f s = some t → Q s t := by
  intro l
  induction l with
  | nil =>
    intro s t h
    rw [List.foldlM_nil] at h
    cases h
    exact hrefl s
  | cons a tl ih =>
    intro s t h
    rw [List.foldlM_cons] at h
    cases hfa : f s a with
    | none => rw [hfa] at h; cases h
    | some s1 =>
      rw [hfa] at h
      exact htrans _ _ _ (hstep s a s1 hfa) (ih s1 t h)

/-- A fold of `set` operations leaves every position it never writes
unchanged. -/
theorem foldl_set_get?_of_ne {α : Type} (g : α → Nat) (v : α → Cell) (j : Nat) :
    ∀ (l : List α) (acc : List Cell), (∀ x ∈ l, g x ≠ j) →
      (l.foldl (fun a x => a.set (g x) (v x)) acc).get? j = acc.get? j := by
  intro l
  induction l with
  | nil => intro acc _; rfl
  | cons x t ih =>
    intro acc h
    rw [List.foldl_cons, ih _ (fun y hy => h y (List.mem_cons_of_mem _ hy))]
    exact List.get?_set_ne _ _ (h x (List.mem_cons_self _ _))

/-- A fold of `set` operations stores, at each position it writes, the value
associated with that position (assuming all writes to that position agree,
which holds in particular when the index map is injective on the list). -/
theorem foldl_set_get?_hit {α : Type} (g : α → Nat) (v : α → Cell) :
    ∀ (l : List α) (x : α) (acc : List Cell), x ∈ l → g x < acc.length →
      (∀ y ∈ l, g y = g x → v y = v x) →
      (l.foldl (fun a y => a.set (g y) (v y)) acc).get? (g x) = some (v x) := by
  intro l
  induction l with
  | nil => intro x acc hx; cases hx
  | cons z t ih =>
    intro x acc hx hlen hcomp
    rw [List.foldl_cons]
    by_cases hdup : ∃ y ∈ t, g y = g x
    · obtain ⟨y, hyt, hgy⟩ := hdup
      have hvy : v y = v x := hcomp y (List.mem_cons_of_mem _ hyt) hgy
      have := ih y (acc.set (g z) (v z)) hyt
        (by rw [List.length_set, hgy]; exact hlen)
        (fun y2 hy2 hg2 => by
          rw [hvy]
          exact hcomp y2 (List.mem_cons_of_mem _ hy2) (hg2.trans hgy))
      rw [hgy, hvy] at this
      exact this
    · push_neg at hdup
      rw [foldl_set_get?_of_ne g v (g x) t _ hdup]
      rcases List.mem_cons.mp hx with hxz | hxt
      · cases hxz
        exact List.get?_set_eq_of_lt _ hlen
      · exact absurd rfl (hdup x hxt)

/-! Section: Small arithmetic and list helpers -/

/-- Setting a position to the value it already holds is the identity. -/
theorem set_get?_self (l : List Cell) (i : Nat) (c : Cell)
    (h : l.get? i = some c) : l.set i c = l := by
  have hlt : i < l.length := by
    by_contra hge
    rw [List.get?_eq_none.mpr (Nat.le_of_not_lt hge)] at h
    cases h
  apply List.ext_get?
  intro n
  by_cases hn : i = n
  · subst hn
    rw [List.get?_set_eq_of_lt _ hlt, h]
  · exact List.get?_set_ne _ _ hn

/-- Toggling twice is the identity: `Cell.toggle` is an involution. -/
theorem Cell.toggle_toggle (c : Cell) : c.toggle.toggle = c := by
  cases c <;> rfl

/-- On a well-formed grid, `get_index` of an in-bounds coordinate is the
plain row-major flat index (the `% 2^32` reduction is the identity). -/
theorem getIndex_eq (u : Universe) (hwf : u.wf) {row col : Nat}
    (hr : row < u.height) (hc : col < u.width) :
    u.getIndex row col = row * u.width + col := by
  unfold Universe.getIndex
  apply Nat.mod_eq_of_lt
  have h1 : row * u.width + col < u.height * u.width := by
    calc row * u.width + col < row * u.width + u.width := by omega
      _ = (row + 1) * u.width := by ring
      _ ≤ u.height * u.width := Nat.mul_le_mul_right _ (by omega)
  calc row * u.width + col < u.height * u.width := h1
    _ = u.width * u.height := Nat.mul_comm _ _
    _ < u32Mod := hwf.2

/-- The in-bounds flat index is smaller than the cell count of a
well-formed grid. -/
theorem flatIndex_lt_length (u : Universe) (hwf : u.wf) {row col : Nat}
    (hr : row < u.height) (hc : col < u.width) :
    row * u.width + col < u.cells.length := by
  rw [hwf.1]
  calc row * u.width + col < row * u.width + u.width := by omega
    _ = (row + 1) * u.width := by ring
    _ ≤ u.height * u.width := Nat.mul_le_mul_right _ (by omega)
    _ = u.width * u.height := Nat.mul_comm _ _

/-- Computation rule for `toggle_cell` when the flat index is in range:
the cell at `get_index(row, col)` — and only it — is flipped. -/
theorem toggleCell_eq_of_get? (u : Universe) (row col : Nat) (c : Cell)
    (hc : u.cells.get? (u.getIndex row col) = some c) :
    u.toggleCell row col
      = some { u with cells := u.cells.set (u.getIndex row col) c.toggle } := by
  unfold Universe.toggleCell
  rw [hc]

/-! Section: C4: bounds behavior of get_index / toggle_cell -/

/-- Claim C4 counterexample: on the well-formed 2 × 2 grid, the out-of-range
call `toggle_cell(0, 2)` (column 2 ≥ width 2) is *not* signaled as an
index-out-of-bounds violation: the flat index `0 * 2 + 2 = 2` is still in
range, so the call succeeds and silently flips the *different* valid cell
`(1, 0)` (flat index 2), contradicting the claim. -/
theorem toggle_cell_out_of_range_aliases :
    Universe.wf (Universe.mk 2 2 [Cell.Dead, Cell.Dead, Cell.Dead, Cell.Dead]) ∧
    2 ≥ (Universe.mk 2 2 [Cell.Dead, Cell.Dead, Cell.Dead, Cell.Dead]).width ∧
    (Universe.mk 2 2 [Cell.Dead, Cell.Dead, Cell.Dead, Cell.Dead]).toggleCell 0 2
      = some (Universe.mk 2 2 [Cell.Dead, Cell.Dead, Cell.Alive, Cell.Dead]) := by
  refine ⟨by decide, by decide, by decide⟩

/-- Claim C4 amended: on a well-formed grid, an out-of-range *row*
(`row ≥ height`, with the flat index not wrapping past `2^32`) makes the
flat index fall outside the cell array, so the `Vec` bounds check fires
(the call panics, modelled as `none`); an out-of-range *column*, by
contrast, is not detected: `toggle_cell` flips exactly the cell at flat
index `get_index(row, col)` whenever that index is in range, which for
`col ≥ width` can be a different valid cell. -/
theorem toggle_cell_bounds_amended :
    (∀ (u : Universe) (row col : Nat), u.wf → u.height ≤ row →
        row * u.width + col < u32Mod → u.toggleCell row col = none) ∧
    (∀ (u : Universe) (row col : Nat) (c : Cell),
        u.cells.get? (u.getIndex row col) = some c →
        u.toggleCell row col
          = some { u with cells := u.cells.set (u.getIndex row col) c.toggle }) := by
  constructor
  · intro u row col hwf hrow hlt
    unfold Universe.toggleCell
    have hidx : u.getIndex row col = row * u.width + col :=
      Nat.mod_eq_of_lt hlt
    have hge : u.cells.length ≤ u.getIndex row col := by
      rw [hidx, hwf.1]
      calc u.width * u.height = u.height * u.width := Nat.mul_comm _ _
        _ ≤ row * u.width := Nat.mul_le_mul_right _ hrow
        _ ≤ row * u.width + col := Nat.le_add_right _ _
    rw [List.get?_eq_none.mpr hge]
  · exact toggleCell_eq_of_get?

/-- Witness for `toggle_cell_bounds_amended` at concrete inputs: on the
well-formed 2 × 2 all-dead grid, row 5 is rejected (`none`), while the
in-bounds toggle at `(0, 1)` flips exactly flat index 1. -/
theorem toggle_cell_bounds_amended_witness :
    Universe.wf (Universe.mk 2 2 [Cell.Dead, Cell.Dead, Cell.Dead, Cell.Dead]) ∧
    (Universe.mk 2 2 [Cell.Dead, Cell.Dead, Cell.Dead, Cell.Dead]).toggleCell 5 0 = none ∧
    (Universe.mk 2 2 [Cell.Dead, Cell.Dead, Cell.Dead, Cell.Dead]).toggleCell 0 1
      = some (Universe.mk 2 2 [Cell.Dead, Cell.Alive, Cell.Dead, Cell.Dead]) :=
  ⟨by decide,
   toggle_cell_bounds_amended.1 _ 5 0 (by decide) (by decide) (by decide),
   (toggle_cell_bounds_amended.2
      (Universe.mk 2 2 [Cell.Dead, Cell.Dead, Cell.Dead, Cell.Dead]) 0 1 Cell.Dead
      rfl).trans (by decide)⟩

/-! Section: C5: construction / resize never signal errors -/

/-- Claim C5 counterexample: `set_width(2^31)` on the freshly constructed
universe (height 100) makes `width * height = 2^31 * 100 ≥ 2^32` overflow
the u32 index type, yet no `InvalidDimensions` error is signaled anywhere:
the operation is total and the cell count silently wraps to
`(2^31 * 100) mod 2^32 = 0`. -/
theorem set_width_overflow_silently_wraps :
    u32Mod ≤ 2147483648 * Universe.new.height ∧
    (Universe.new.set_width 2147483648).cells.length = 0 ∧
    (Universe.new.set_width 2147483648).cells.length ≠
      2147483648 * (Universe.new.set_width 2147483648).height := by
  refine ⟨by decide, by decide, by decide⟩

/-- Claim C5 amended: construction takes no dimension arguments and always
succeeds with the fixed 200 × 100 = 20000-cell grid; `set_width` and
`set_height` are total and never signal any error: the reallocated cell
count is always the u32-wrapped product `(new_width * height) mod 2^32`
(resp. `(width * new_height) mod 2^32`), silently wrapping on overflow. -/
theorem construction_resize_total :
    Universe.new.cells.length = 200 * 100 ∧
    (∀ (u : Universe) (w : Nat),
      (u.set_width w).cells.length = (w * u.height) % u32Mod) ∧
    (∀ (u : Universe) (h : Nat),
      (u.set_height h).cells.length = (u.width * h) % u32Mod) := by
  refine ⟨?_, fun u w => ?_, fun u h => ?_⟩
  · simp [Universe.new]
  · simp [Universe.set_width]
  · simp [Universe.set_height]

/-! Section: C7: inject_random_cells with non-positive size is a no-op -/

/-- The `-size..size` iterator is empty for `size ≤ 0`. -/
theorem deltaRange_nonpos {size : Int} (hs : size ≤ 0) : deltaRange size = [] := by
  unfold deltaRange
  have h0 : (2 * size).toNat = 0 := by omega
  rw [h0]
  rfl

/-- Claim C7 confirmed: for every grid state, every center coordinate and
every `size ≤ 0`, `inject_random_cells(center_row, center_col, size)` is a
no-op: the iterated range `-size..size` is empty, so the call succeeds and
returns the grid unchanged (cells, width and height), regardless of the
injected random source. -/
theorem injectRandomCells_nonpos_noop (u : Universe) (rand : Nat → Cell)
    (row col : Nat) (size : Int) (hs : size ≤ 0) :
    u.injectRandomCells rand row col size = some u := by
  unfold Universe.injectRandomCells
  rw [deltaRange_nonpos hs]
  rfl

/-- Witness for `injectRandomCells_nonpos_noop` at `size = 0` on a concrete
grid. -/
theorem injectRandomCells_nonpos_noop_witness :
    (0 : Int) ≤ 0 ∧
    (Universe.mk 2 2 [Cell.Dead, Cell.Alive, Cell.Dead, Cell.Alive]).injectRandomCells
        (fun _ => Cell.Alive) 1 1 0
      = some (Universe.mk 2 2 [Cell.Dead, Cell.Alive, Cell.Dead, Cell.Alive]) :=
  ⟨by decide, injectRandomCells_nonpos_noop _ _ 1 1 0 (by decide)⟩

/-! Section: C9: destructive resize -/

/-- Claim C9 counterexample: after `set_height(2^31)` on the freshly
constructed universe (width 200), the cell count is the wrapped
`(200 * 2^31) mod 2^32 = 0`, which is *not* equal to the product
`200 * 2^31` of the new dimensions, contradicting the claim's
"`len(cells)` equals the product of the new dimensions exactly". -/
theorem set_height_overflow_breaks_exact_length :
    (Universe.new.set_height 2147483648).cells.length ≠
      (Universe.new.set_height 2147483648).width *
        (Universe.new.set_height 2147483648).height := by
  decide

/-- Claim C9 amended: `set_width(n)` / `set_height(n)` are destructive
resizes: the changed dimension equals the new value, every cell of the new
array is `Dead` (no previously `Alive` cell survives), and the cell count is
the u32-wrapped product of the new dimensions — equal to the exact product
whenever that product does not overflow u32. -/
theorem resize_destructive_amended (u : Universe) (n : Nat) :
    ((u.set_width n).width = n ∧ (u.set_width n).height = u.height ∧
      (u.set_width n).cells.length = (n * u.height) % u32Mod ∧
      (n * u.height < u32Mod →
        (u.set_width n).cells.length = n * (u.set_width n).height) ∧
      (∀ c ∈ (u.set_width n).cells, c = Cell.Dead)) ∧
    ((u.set_height n).height = n ∧ (u.set_height n).width = u.width ∧
      (u.set_height n).cells.length = (u.width * n) % u32Mod ∧
      (u.width * n < u32Mod →
        (u.set_height n).cells.length = (u.set_height n).width * n) ∧
      (∀ c ∈ (u.set_height n).cells, c = Cell.Dead)) := by
  refine ⟨⟨rfl, rfl, by simp [Universe.set_width], fun hlt => ?_, fun c hc => ?_⟩,
          ⟨rfl, rfl, by simp [Universe.set_height], fun hlt => ?_, fun c hc => ?_⟩⟩
  · show (List.replicate ((n * u.height) % u32Mod) Cell.Dead).length = n * u.height
    rw [List.length_replicate, Nat.mod_eq_of_lt hlt]
  · exact List.eq_of_mem_replicate hc
  · show (List.replicate ((u.width * n) % u32Mod) Cell.Dead).length = u.width * n
    rw [List.length_replicate, Nat.mod_eq_of_lt hlt]
  · exact List.eq_of_mem_replicate hc

/-- Witness for `resize_destructive_amended` at a concrete universe and
dimension. -/
theorem resize_destructive_amended_witness :
    3 * (Universe.mk 2 2 [Cell.Alive, Cell.Alive, Cell.Alive, Cell.Alive]).height < u32Mod ∧
    ((Universe.mk 2 2 [Cell.Alive, Cell.Alive, Cell.Alive, Cell.Alive]).set_width 3).cells.length
      = 3 * ((Universe.mk 2 2 [Cell.Alive, Cell.Alive, Cell.Alive, Cell.Alive]).set_width 3).height ∧
    (∀ c ∈ ((Universe.mk 2 2 [Cell.Alive, Cell.Alive, Cell.Alive, Cell.Alive]).set_width 3).cells,
      c = Cell.Dead) :=
  ⟨by decide,
   (resize_destructive_amended (Universe.mk 2 2 [Cell.Alive, Cell.Alive, Cell.Alive, Cell.Alive]) 3).1.2.2.2.1
     (by decide),
   (resize_destructive_amended (Universe.mk 2 2 [Cell.Alive, Cell.Alive, Cell.Alive, Cell.Alive]) 3).1.2.2.2.2⟩

/-! Section: C8: toggle_cell is an involution -/

/-- Claim C8 confirmed: on a well-formed grid, toggling the same in-bounds
coordinate twice restores exactly the original state (the first call
succeeds, and the second undoes it). -/
theorem toggle_toggle_restores (u : Universe) (hwf : u.wf) (row col : Nat)
    (hr : row < u.height) (hc : col < u.width) :
    (u.toggleCell row col).bind (fun v => v.toggleCell row col) = some u := by
  obtain ⟨w, h, cs⟩ := u
  have hlt : Universe.getIndex ⟨w, h, cs⟩ row col < cs.length := by
    rw [getIndex_eq _ hwf hr hc]
    exact flatIndex_lt_length _ hwf hr hc
  have hc0 : cs.get? (Universe.getIndex ⟨w, h, cs⟩ row col)
      = some (cs.get ⟨Universe.getIndex ⟨w, h, cs⟩ row col, hlt⟩) :=
    List.get?_eq_get hlt
  rw [toggleCell_eq_of_get? _ row col _ hc0, Option.some_bind,
    toggleCell_eq_of_get?
      ⟨w, h, cs.set (Universe.getIndex ⟨w, h, cs⟩ row col)
        (cs.get ⟨Universe.getIndex ⟨w, h, cs⟩ row col, hlt⟩).toggle⟩
      row col
      (cs.get ⟨Universe.getIndex ⟨w, h, cs⟩ row col, hlt⟩).toggle
      (List.get?_set_eq_of_lt _ (by simpa using hlt))]
  show some (Universe.mk w h
      ((cs.set _ _).set (Universe.getIndex ⟨w, h, cs⟩ row col) _)) = _
  rw [List.set_set, Cell.toggle_toggle, set_get?_self _ _ _ hc0]

/-- Witness for `toggle_toggle_restores`: double toggle of `(0, 1)` on a
concrete well-formed 2 × 2 grid returns the original grid. -/
theorem toggle_toggle_restores_witness :
    Universe.wf (Universe.mk 2 2 [Cell.Dead, Cell.Alive, Cell.Dead, Cell.Dead]) ∧
    ((Universe.mk 2 2 [Cell.Dead, Cell.Alive, Cell.Dead, Cell.Dead]).toggleCell 0 1).bind
        (fun v => v.toggleCell 0 1)
      = some (Universe.mk 2 2 [Cell.Dead, Cell.Alive, Cell.Dead, Cell.Dead]) :=
  ⟨by decide,
   toggle_toggle_restores (Universe.mk 2 2 [Cell.Dead, Cell.Alive, Cell.Dead, Cell.Dead])
     (by decide) 0 1 (by decide) (by decide)⟩

/-! Section: Frame lemmas: dimensions and cell count are preserved -/

/-- A single successful `inject_random_cells` inner-loop step preserves the
width, height and cell count. -/
theorem injectStep_preserves (rand : Nat → Cell) (row colOff : Nat)
    (s : Universe × Nat) (a : Int) (t : Universe × Nat)
    (hstep : injectStep rand row colOff s a = some t) :
    t.1.width = s.1.width ∧ t.1.height = s.1.height ∧
      t.1.cells.length = s.1.cells.length := by
  unfold injectStep at hstep
  split at hstep
  · cases hstep
    exact ⟨rfl, rfl, by simp⟩
  · cases hstep

/-- A successful `inject_random_cells` call preserves the width, the height
and the cell count. -/
theorem injectRandomCells_preserves (u : Universe) (rand : Nat → Cell)
    (row col : Nat) (size : Int) (v : Universe)
    (hcall : u.injectRandomCells rand row col size = some v) :
    v.width = u.width ∧ v.height = u.height ∧
      v.cells.length = u.cells.length := by
  unfold Universe.injectRandomCells at hcall
  rw [Option.map_eq_some'] at hcall
  obtain ⟨st, hst, hv⟩ := hcall
  subst hv
  exact foldlM_option_inv _
    (fun s t : Universe × Nat => t.1.width = s.1.width ∧ t.1.height = s.1.height ∧
      t.1.cells.length = s.1.cells.length)
    (fun s => ⟨rfl, rfl, rfl⟩)
    (fun a b c hab hbc =>
      ⟨hbc.1.trans hab.1, hbc.2.1.trans hab.2.1, hbc.2.2.trans hab.2.2⟩)
    (fun s a t h1 => foldlM_option_inv _ _
      (fun s => ⟨rfl, rfl, rfl⟩)
      (fun a b c hab hbc =>
        ⟨hbc.1.trans hab.1, hbc.2.1.trans hab.2.1, hbc.2.2.trans hab.2.2⟩)
      (injectStep_preserves rand row _) _ s t h1)
    _ _ _ hst

/-- A successful `set_cells` call preserves the width, the height and the
cell count. -/
theorem setCells_preserves (u : Universe) (l : List (Nat × Nat)) (v : Universe)
    (hcall : u.setCells l = some v) :
    v.width = u.width ∧ v.height = u.height ∧
      v.cells.length = u.cells.length := by
  unfold Universe.setCells at hcall
  refine foldlM_option_inv _
    (fun s t : Universe => t.width = s.width ∧ t.height = s.height ∧
      t.cells.length = s.cells.length)
    (fun s => ⟨rfl, rfl, rfl⟩)
    (fun a b c hab hbc =>
      ⟨hbc.1.trans hab.1, hbc.2.1.trans hab.2.1, hbc.2.2.trans hab.2.2⟩)
    (fun s a t h1 => ?_) l u v hcall
  split at h1
  · cases h1
    exact ⟨rfl, rfl, by simp⟩
  · cases h1

/-- A successful `toggle_cell` call preserves the width, the height and the
cell count. -/
theorem toggleCell_preserves (u : Universe) (row col : Nat) (v : Universe)
    (hcall : u.toggleCell row col = some v) :
    v.width = u.width ∧ v.height = u.height ∧
      v.cells.length = u.cells.length := by
  unfold Universe.toggleCell at hcall
  split at hcall
  · cases hcall
    exact ⟨rfl, rfl, by simp⟩
  · cases hcall

/-- The operation `tick` preserves the width, the height and the cell count. -/
theorem tick_preserves (u : Universe) :
    (u.tick).width = u.width ∧ (u.tick).height = u.height ∧
      (u.tick).cells.length = u.cells.length := by
  refine ⟨rfl, rfl, ?_⟩
  show ((List.range u.height).foldl (fun a row => innerPass u row a) u.cells).length
    = u.cells.length
  refine foldl_inv _ (fun l : List Cell => l.length = u.cells.length) ?_ _ _ rfl
  intro s a hs
  unfold innerPass
  refine foldl_inv _ (fun l : List Cell => l.length = u.cells.length) ?_ _ s hs
  intro s2 a2 hs2
  rw [List.length_set]
  exact hs2

/-! Section: C10: mutators never change the dimensions -/

/-- Claim C10 confirmed: the mutation operations `tick`, `toggle_cell`,
`set_cells` and `inject_random_cells` never change the grid's `width` or
`height` fields (whenever they return at all); only `set_width` and
`set_height` alter the dimensions. -/
theorem mutators_preserve_dims :
    (∀ u : Universe, (u.tick).width = u.width ∧ (u.tick).height = u.height) ∧
    (∀ (u : Universe) (row col : Nat) (v : Universe),
      u.toggleCell row col = some v → v.width = u.width ∧ v.height = u.height) ∧
    (∀ (u : Universe) (l : List (Nat × Nat)) (v : Universe),
      u.setCells l = some v → v.width = u.width ∧ v.height = u.height) ∧
    (∀ (u : Universe) (rand : Nat → Cell) (row col : Nat) (size : Int)
      (v : Universe), u.injectRandomCells rand row col size = some v →
        v.width = u.width ∧ v.height = u.height) :=
  ⟨fun u => ⟨(tick_preserves u).1, (tick_preserves u).2.1⟩,
   fun u row col v h =>
    ⟨(toggleCell_preserves u row col v h).1, (toggleCell_preserves u row col v h).2.1⟩,
   fun u l v h => ⟨(setCells_preserves u l v h).1, (setCells_preserves u l v h).2.1⟩,
   fun u rand row col size v h =>
    ⟨(injectRandomCells_preserves u rand row col size v h).1,
     (injectRandomCells_preserves u rand row col size v h).2.1⟩⟩

/-- Witness for `mutators_preserve_dims`: all four mutators applied to a
concrete 2 × 2 grid leave `width = 2` and `height = 2`. -/
theorem mutators_preserve_dims_witness :
    ((Universe.mk 2 2 [Cell.Dead, Cell.Dead, Cell.Dead, Cell.Dead]).tick.width = 2 ∧
      (Universe.mk 2 2 [Cell.Dead, Cell.Dead, Cell.Dead, Cell.Dead]).tick.height = 2) ∧
    ((Universe.mk 2 2 [Cell.Alive, Cell.Dead, Cell.Dead, Cell.Dead]).width = 2 ∧
      (Universe.mk 2 2 [Cell.Alive, Cell.Dead, Cell.Dead, Cell.Dead]).height = 2) ∧
    ((Universe.mk 2 2 [Cell.Alive, Cell.Dead, Cell.Dead, Cell.Dead]).width = 2 ∧
      (Universe.mk 2 2 [Cell.Alive, Cell.Dead, Cell.Dead, Cell.Dead]).height = 2) ∧
    ((Universe.mk 2 2 [Cell.Alive, Cell.Alive, Cell.Alive, Cell.Alive]).width = 2 ∧
      (Universe.mk 2 2 [Cell.Alive, Cell.Alive, Cell.Alive, Cell.Alive]).height = 2) :=
  ⟨mutators_preserve_dims.1 (Universe.mk 2 2 [Cell.Dead, Cell.Dead, Cell.Dead, Cell.Dead]),
   mutators_preserve_dims.2.1 (Universe.mk 2 2 [Cell.Dead, Cell.Dead, Cell.Dead, Cell.Dead])
     0 0 (Universe.mk 2 2 [Cell.Alive, Cell.Dead, Cell.Dead, Cell.Dead]) (by decide),
   mutators_preserve_dims.2.2.1 (Universe.mk 2 2 [Cell.Dead, Cell.Dead, Cell.Dead, Cell.Dead])
     [(0, 0)] (Universe.mk 2 2 [Cell.Alive, Cell.Dead, Cell.Dead, Cell.Dead]) (by decide),
   mutators_preserve_dims.2.2.2 (Universe.mk 2 2 [Cell.Dead, Cell.Dead, Cell.Dead, Cell.Dead])
     (fun _ => Cell.Alive) 0 0 1 (Universe.mk 2 2 [Cell.Alive, Cell.Alive, Cell.Alive, Cell.Alive])
     (by decide)⟩

/-! Section: C1: tick applies the Conway rule to the frozen snapshot -/

/-- The helper `innerPass` preserves the length of the accumulator. -/
theorem innerPass_length (u : Universe) (row : Nat) (acc : List Cell) :
    (innerPass u row acc).length = acc.length := by
  unfold innerPass
  exact foldl_inv _ (fun l : List Cell => l.length = acc.length)
    (fun s a hs => by
      show (s.set _ _).length = acc.length
      rw [List.length_set]
      exact hs) _ acc rfl

/-- The helper `innerPass` leaves every flat position it never writes untouched. -/
theorem innerPass_get?_of_ne (u : Universe) (row : Nat) (acc : List Cell)
    (j : Nat) (h : ∀ col < u.width, u.getIndex row col ≠ j) :
    (innerPass u row acc).get? j = acc.get? j := by
  unfold innerPass
  exact foldl_set_get?_of_ne _ _ j _ acc
    (fun x hx => h x (List.mem_range.mp hx))

/-- The helper `innerPass` stores `tickVal` at every in-bounds position of its row. -/
theorem innerPass_get?_hit (u : Universe) (hwf : u.wf) (row : Nat)
    (hrow : row < u.height) (col : Nat) (hcol : col < u.width)
    (acc : List Cell) (hlen : acc.length = u.cells.length) :
    (innerPass u row acc).get? (row * u.width + col)
      = some (tickVal u row col) := by
  have hg : u.getIndex row col = row * u.width + col := getIndex_eq u hwf hrow hcol
  have hb : u.getIndex row col < acc.length := by
    rw [hg, hlen]
    exact flatIndex_lt_length u hwf hrow hcol
  have hcomp : ∀ y ∈ List.range u.width,
      u.getIndex row y = u.getIndex row col → tickVal u row y = tickVal u row col := by
    intro y hy hgy
    have hy2 : y < u.width := List.mem_range.mp hy
    have h1 : u.getIndex row y = row * u.width + y := getIndex_eq u hwf hrow hy2
    have hyc : y = col := by
      rw [h1, hg] at hgy
      omega
    rw [hyc]
  have hmain := foldl_set_get?_hit (fun c => u.getIndex row c)
    (fun c => tickVal u row c) (List.range u.width) col acc
    (List.mem_range.mpr hcol) hb hcomp
  simp only [] at hmain
  rw [hg] at hmain
  unfold innerPass
  exact hmain

/-- A prefix of `tick`'s row loop keeps the cell count of the frozen
grid. -/
theorem tick_fold_length (u : Universe) (n : Nat) :
    ((List.range n).foldl (fun a r => innerPass u r a) u.cells).length
      = u.cells.length :=
  foldl_inv _ (fun l : List Cell => l.length = u.cells.length)
    (fun s a hs => by
      show (innerPass u a s).length = u.cells.length
      rw [innerPass_length]
      exact hs) _ _ rfl

/-- After processing the first `n` rows, every position of an
already-processed row holds its `tickVal` (computed from the frozen
pre-tick grid, so later rows cannot disturb it). -/
theorem tick_fold_get? (u : Universe) (hwf : u.wf) :
    ∀ (n : Nat), n ≤ u.height → ∀ (row col : Nat), row < n → col < u.width →
      ((List.range n).foldl (fun a r => innerPass u r a) u.cells).get?
        (row * u.width + col) = some (tickVal u row col) := by
  intro n
  induction n with
  | zero => intro _ row col h _; omega
  | succ n ih =>
    intro hn row col hrow hcol
    rw [List.range_succ, List.foldl_append, List.foldl_cons, List.foldl_nil]
    by_cases hr : row = n
    · subst hr
      exact innerPass_get?_hit u hwf row (by omega) col hcol _ (tick_fold_length u row)
    · have hrown : row < n := by omega
      have hne : ∀ c < u.width, u.getIndex n c ≠ row * u.width + col := by
        intro c hcw
        rw [getIndex_eq u hwf (by omega : n < u.height) hcw]
        intro heq
        have e1 : (row + 1) * u.width = row * u.width + u.width := by ring
        have e2 : (row + 1) * u.width ≤ n * u.width :=
          Nat.mul_le_mul_right u.width (by omega)
        omega
      rw [innerPass_get?_of_ne u n _ _ hne]
      exact ih (by omega) row col hrown hcol

/-- Claim C1 confirmed: on a well-formed grid, after one `tick()` every
in-bounds cell equals the Conway rule applied to its pre-tick state and its
pre-tick live neighbor count; the next generation is computed entirely from
the frozen pre-tick array (`tick` clones `self.cells` and reads only the
clone source), so iteration order cannot affect the result. -/
theorem tick_applies_conway_rule (u : Universe) (hwf : u.wf) (row col : Nat)
    (hr : row < u.height) (hc : col < u.width) :
    (u.tick).cells.get? (row * u.width + col)
      = some (nextCellState (u.cells.getD (row * u.width + col) Cell.Dead)
          (u.liveNeighborCount row col)) := by
  have h := tick_fold_get? u hwf u.height le_rfl row col hr hc
  show ((List.range u.height).foldl (fun a r => innerPass u r a) u.cells).get?
      (row * u.width + col) = _
  rw [h]
  unfold tickVal
  rw [getIndex_eq u hwf hr hc]

/-- Witness for `tick_applies_conway_rule`: on a well-formed 3 × 3 grid
with a single isolated `Alive` cell at `(1, 1)` (zero live neighbors),
that cell is `Dead` after one tick. -/
theorem tick_applies_conway_rule_witness :
    Universe.wf (Universe.mk 3 3 [Cell.Dead, Cell.Dead, Cell.Dead,
      Cell.Dead, Cell.Alive, Cell.Dead, Cell.Dead, Cell.Dead, Cell.Dead]) ∧
    (Universe.mk 3 3 [Cell.Dead, Cell.Dead, Cell.Dead,
      Cell.Dead, Cell.Alive, Cell.Dead, Cell.Dead, Cell.Dead, Cell.Dead]).cells.getD 4 Cell.Dead
      = Cell.Alive ∧
    (Universe.mk 3 3 [Cell.Dead, Cell.Dead, Cell.Dead,
      Cell.Dead, Cell.Alive, Cell.Dead, Cell.Dead, Cell.Dead, Cell.Dead]).liveNeighborCount 1 1
      = 0 ∧
    ((Universe.mk 3 3 [Cell.Dead, Cell.Dead, Cell.Dead,
      Cell.Dead, Cell.Alive, Cell.Dead, Cell.Dead, Cell.Dead, Cell.Dead]).tick).cells.get? 4
      = some Cell.Dead :=
  ⟨by decide, by decide, by decide,
   (tick_applies_conway_rule (Universe.mk 3 3 [Cell.Dead, Cell.Dead, Cell.Dead,
      Cell.Dead, Cell.Alive, Cell.Dead, Cell.Dead, Cell.Dead, Cell.Dead])
     (by decide) 1 1 (by decide) (by decide)).trans (by decide)⟩

/-! Section: C2: live_neighbor_count -/

/-- The Alive-indicator of a cell is at most 1. -/
theorem cell_toNat_le_one (c : Cell) : c.toNat ≤ 1 := by
  cases c <;> simp [Cell.toNat]

/-- Each spec-side neighbor indicator is at most 1. -/
theorem specNb_le_one (u : Universe) (row col : Nat) (dr dc : Int) :
    specNb u row col dr dc ≤ 1 := cell_toNat_le_one _

/-- The spec-side neighbor count is at most 8. -/
theorem specLiveNeighborCount_le_eight (u : Universe) (row col : Nat) :
    specLiveNeighborCount u row col ≤ 8 := by
  unfold specLiveNeighborCount
  have h1 := specNb_le_one u row col (-1) (-1)
  have h2 := specNb_le_one u row col (-1) 0
  have h3 := specNb_le_one u row col (-1) 1
  have h4 := specNb_le_one u row col 0 (-1)
  have h5 := specNb_le_one u row col 0 1
  have h6 := specNb_le_one u row col 1 (-1)
  have h7 := specNb_le_one u row col 1 0
  have h8 := specNb_le_one u row col 1 1
  omega

/-- A floor-modulo result, as a natural number, is below the (positive)
modulus. -/
theorem emod_toNat_lt (a : Int) (n : Nat) (hn : 0 < n) :
    (a % ((n : Int))).toNat < n := by
  have hne : ((n : Int)) ≠ 0 := by omega
  have h1 : 0 ≤ a % ((n : Int)) := Int.emod_nonneg a hne
  have h2 : a % ((n : Int)) < ((n : Int)) := Int.emod_lt_of_pos a (by omega)
  omega

/-- The u32 coordinate arithmetic of `live_neighbor_count` computes the
spec's floor-modulo wrap for each of the three wrap deltas (`n - 1`, `0`,
`1` standing for the offsets `-1`, `0`, `+1`), provided `2 ≤ n` in the
`n - 1` case and the u32 addition cannot wrap (`2n ≤ 2^32`). -/
theorem wrapped_coord_eq (x n d : Nat) (e : Int) (hx : x < n)
    (hn : 2 * n ≤ u32Mod)
    (hcase : (d = n - 1 ∧ e = -1 ∧ 2 ≤ n) ∨ (d = 0 ∧ e = 0) ∨ (d = 1 ∧ e = 1)) :
    ((x + d) % u32Mod) % n = (((x : Int) + e) % ((n : Int))).toNat := by
  have hn0 : 0 < n := by omega
  have hlt : x + d < u32Mod := by
    rcases hcase with ⟨hd, _, _⟩ | ⟨hd, _⟩ | ⟨hd, _⟩ <;> omega
  rw [Nat.mod_eq_of_lt hlt]
  have key : ((x : Int) + e) % ((n : Int)) = (((x + d) % n : Nat) : Int) := by
    rw [Int.natCast_mod]
    rcases hcase with ⟨hd, he, h2⟩ | ⟨hd, he⟩ | ⟨hd, he⟩
    · subst hd; subst he
      have hcast : ((x + (n - 1) : Nat) : Int) = (x : Int) + -1 + ((n : Int)) * 1 := by
        omega
      rw [hcast, Int.add_mul_emod_self_left]
    · subst hd; subst he
      have hcast : ((x + 0 : Nat) : Int) = (x : Int) + 0 := by omega
      rw [hcast]
    · subst hd; subst he
      have hcast : ((x + 1 : Nat) : Int) = (x : Int) + 1 := by omega
      rw [hcast]
  rw [key, Int.toNat_ofNat]

/-- Claim C2 counterexample: on the well-formed 1 × 1 grid whose only cell is
`Alive`, the 8-offset toroidal formula of the spec counts 8 (every offset
wraps back to the cell itself), but `live_neighbor_count` returns 5: its
delta lists are `[height - 1, 0, 1] = [0, 0, 1]`, so the literal-zero skip
test `row_delta == 0 && col_delta == 0` discards 4 of the 9 offset pairs
instead of 1. -/
theorem live_neighbor_count_degenerate :
    Universe.wf (Universe.mk 1 1 [Cell.Alive]) ∧
    (Universe.mk 1 1 [Cell.Alive]).liveNeighborCount 0 0 = 5 ∧
    specLiveNeighborCount (Universe.mk 1 1 [Cell.Alive]) 0 0 = 8 :=
  ⟨by decide, by decide, by decide⟩

/-- Claim C2 amended: on a well-formed grid with `width ≥ 2` and
`height ≥ 2`, `live_neighbor_count(row, col)` returns exactly the number of
`Alive` cells among the 8 toroidally-adjacent positions (each 3×3 offset
except `(0,0)`, row wrapped mod `height` and column wrapped mod `width`),
and the result is always in `[0, 8]`.  (For degenerate grids with a
dimension equal to 1 the literal-zero skip test collapses duplicated
deltas and undercounts relative to the 8-offset formula.) -/
theorem live_neighbor_count_amended (u : Universe) (hwf : u.wf)
    (hh2 : 2 ≤ u.height) (hw2 : 2 ≤ u.width) (row col : Nat)
    (hr : row < u.height) (hc : col < u.width) :
    u.liveNeighborCount row col = specLiveNeighborCount u row col ∧
      u.liveNeighborCount row col ≤ 8 := by
  have hH : 2 * u.height ≤ u32Mod := by
    have hmono : 2 * u.height ≤ u.width * u.height :=
      Nat.mul_le_mul_right u.height hw2
    have hp := hwf.2
    omega
  have hW : 2 * u.width ≤ u32Mod := by
    have hmono : u.width * 2 ≤ u.width * u.height :=
      Nat.mul_le_mul_left u.width hh2
    have hp := hwf.2
    omega
  have heq : u.liveNeighborCount row col = specLiveNeighborCount u row col := by
    have e1 : (u.height - 1 = 0) = False := eq_false (by omega)
    have e2 : (u.width - 1 = 0) = False := eq_false (by omega)
    have e3 : ((1 : Nat) = 0) = False := eq_false (by omega)
    have hrm := wrapped_coord_eq row u.height (u.height - 1) (-1) hr hH
      (Or.inl ⟨rfl, rfl, hh2⟩)
    have hr0 := wrapped_coord_eq row u.height 0 0 hr hH (Or.inr (Or.inl ⟨rfl, rfl⟩))
    have hrp := wrapped_coord_eq row u.height 1 1 hr hH (Or.inr (Or.inr ⟨rfl, rfl⟩))
    have hcm := wrapped_coord_eq col u.width (u.width - 1) (-1) hc hW
      (Or.inl ⟨rfl, rfl, hw2⟩)
    have hc0 := wrapped_coord_eq col u.width 0 0 hc hW (Or.inr (Or.inl ⟨rfl, rfl⟩))
    have hcp := wrapped_coord_eq col u.width 1 1 hc hW (Or.inr (Or.inr ⟨rfl, rfl⟩))
    have brm := emod_toNat_lt ((row : Int) + -1) u.height (by omega)
    have br0 := emod_toNat_lt ((row : Int) + 0) u.height (by omega)
    have brp := emod_toNat_lt ((row : Int) + 1) u.height (by omega)
    have bcm := emod_toNat_lt ((col : Int) + -1) u.width (by omega)
    have bc0 := emod_toNat_lt ((col : Int) + 0) u.width (by omega)
    have bcp := emod_toNat_lt ((col : Int) + 1) u.width (by omega)
    unfold Universe.liveNeighborCount specLiveNeighborCount specNb
    simp only [List.foldl_cons, List.foldl_nil, e1, e2, e3, eq_self_iff_true,
      false_and, and_false, true_and, and_true, if_true, if_false]
    rw [hrm, hr0, hrp, hcm, hc0, hcp]
    rw [getIndex_eq u hwf brm bcm, getIndex_eq u hwf brm bc0,
      getIndex_eq u hwf brm bcp, getIndex_eq u hwf br0 bcm,
      getIndex_eq u hwf br0 bcp, getIndex_eq u hwf brp bcm,
      getIndex_eq u hwf brp bc0, getIndex_eq u hwf brp bcp]
    omega
  refine ⟨heq, ?_⟩
  rw [heq]
  exact specLiveNeighborCount_le_eight u row col

/-- Witness for `live_neighbor_count_amended` on a concrete well-formed
3 × 3 grid: the corner `(0, 0)` sees its two toroidally wrapped `Alive`
neighbors at `(2, 0)` and `(0, 2)`. -/
theorem live_neighbor_count_amended_witness :
    Universe.wf (Universe.mk 3 3 [Cell.Alive, Cell.Dead, Cell.Alive,
      Cell.Dead, Cell.Dead, Cell.Dead, Cell.Alive, Cell.Dead, Cell.Dead]) ∧
    ((Universe.mk 3 3 [Cell.Alive, Cell.Dead, Cell.Alive,
        Cell.Dead, Cell.Dead, Cell.Dead, Cell.Alive, Cell.Dead, Cell.Dead]).liveNeighborCount 0 0
      = specLiveNeighborCount (Universe.mk 3 3 [Cell.Alive, Cell.Dead, Cell.Alive,
          Cell.Dead, Cell.Dead, Cell.Dead, Cell.Alive, Cell.Dead, Cell.Dead]) 0 0 ∧
     (Universe.mk 3 3 [Cell.Alive, Cell.Dead, Cell.Alive,
        Cell.Dead, Cell.Dead, Cell.Dead, Cell.Alive, Cell.Dead, Cell.Dead]).liveNeighborCount 0 0 ≤ 8) ∧
    (Universe.mk 3 3 [Cell.Alive, Cell.Dead, Cell.Alive,
      Cell.Dead, Cell.Dead, Cell.Dead, Cell.Alive, Cell.Dead, Cell.Dead]).liveNeighborCount 0 0 = 2 :=
  ⟨by decide,
   live_neighbor_count_amended (Universe.mk 3 3 [Cell.Alive, Cell.Dead, Cell.Alive,
      Cell.Dead, Cell.Dead, Cell.Dead, Cell.Alive, Cell.Dead, Cell.Dead])
     (by decide) (by decide) (by decide) 0 0 (by decide) (by decide),
   by decide⟩

/-! Section: C3: the cell-count invariant -/

set_option maxRecDepth 10000 in
/-- Claim C3 counterexample: the state reached from `new()` by
`set_height(2)` then `set_width(2^31)` is a reachable state in which
`len(cells) = (2^31 * 2) mod 2^32 = 0` differs from
`width * height = 2^31 * 2`, so the claimed invariant
`len(cells) == width * height` does not hold in every reachable state. -/
theorem invariant_fails_after_overflow_resize :
    Reachable ((Universe.new.set_height 2).set_width 2147483648) ∧
    ((Universe.new.set_height 2).set_width 2147483648).cells.length ≠
      ((Universe.new.set_height 2).set_width 2147483648).width *
        ((Universe.new.set_height 2).set_width 2147483648).height :=
  ⟨Reachable.step _ _
      (Reachable.step _ _ Reachable.new (Step.height_change _ 2 (by decide)))
      (Step.width_change _ 2147483648 (by decide)),
   by decide⟩

/-- Claim C3 amended: the u32-wrapped invariant
`len(cells) = (width * height) mod 2^32` holds immediately after
construction and is preserved by every engine operation, i.e. it holds in
every reachable state; in particular `len(cells) = width * height` exactly
in every reachable state whose dimension product does not overflow u32.
(The read accessors and `text_render` take `&self` and cannot change the
state.) -/
theorem reachable_cells_length_invariant (u : Universe) (hu : Reachable u) :
    u.cells.length = (u.width * u.height) % u32Mod := by
  induction hu with
  | new =>
    simp [Universe.new, u32Mod]
  | step u v _ hstep ih =>
    cases hstep with
    | tick =>
      obtain ⟨hw, hh, hl⟩ := tick_preserves u
      rw [hw, hh, hl, ih]
    | toggle row col v2 hcall =>
      obtain ⟨hw, hh, hl⟩ := toggleCell_preserves _ _ _ _ hcall
      rw [hw, hh, hl, ih]
    | set_cells l v2 hcall =>
      obtain ⟨hw, hh, hl⟩ := setCells_preserves _ _ _ hcall
      rw [hw, hh, hl, ih]
    | inject rand row col size v2 hcall =>
      obtain ⟨hw, hh, hl⟩ := injectRandomCells_preserves _ _ _ _ _ _ hcall
      rw [hw, hh, hl, ih]
    | width_change w hw =>
      show (List.replicate ((w * u.height) % u32Mod) Cell.Dead).length = _
      rw [List.length_replicate]
      rfl
    | height_change hgt hh =>
      show (List.replicate ((u.width * hgt) % u32Mod) Cell.Dead).length = _
      rw [List.length_replicate]
      rfl

/-- Witness for `reachable_cells_length_invariant` at the initial state. -/
theorem reachable_cells_length_invariant_witness :
    Universe.new.cells.length = (Universe.new.width * Universe.new.height) % u32Mod :=
  reachable_cells_length_invariant Universe.new Reachable.new

/-! Section: C6: inject_random_cells -/

/-- The cast `toI32` is the identity on the i32 range. -/
theorem toI32_eq_self (n : Int) (h1 : -2147483648 ≤ n) (h2 : n < 2147483648) :
    toI32 n = n := by
  unfold toI32
  omega

/-- Any element of the `-size..size` iterator lies in `[-size, size)`. -/
theorem deltaRange_mem {size d : Int} (hd : d ∈ deltaRange size) :
    -size ≤ d ∧ d < size := by
  unfold deltaRange at hd
  obtain ⟨k, hk, hdk⟩ := List.mem_map.mp hd
  have hkr : k < (2 * size).toNat := List.mem_range.mp hk
  have hk0 : 0 ≤ (k : Int) := Int.natCast_nonneg k
  subst hdk
  constructor
  · omega
  · omega

/-- When the i32 arithmetic cannot overflow and `w + i ≥ 0`, the Rust
truncating-remainder pipeline of `wrap_for_size` computes the floor modulo
`i mod w`, which lies in `[0, w)`. -/
theorem wrap_for_size_eq_emod (i : Int) (w : Nat) (hw0 : 0 < w)
    (hw31 : (w : Int) < 2147483648) (hlo : 0 ≤ (w : Int) + i)
    (hup : (w : Int) + i < 2147483648) :
    wrap_for_size i w = (i % ((w : Int))).toNat ∧ (i % ((w : Int))).toNat < w := by
  have hsw : toI32 ((w : Int)) = (w : Int) := toI32_eq_self _ (by omega) (by omega)
  have hsum : toI32 ((w : Int) + i) = (w : Int) + i :=
    toI32_eq_self _ (by omega) (by omega)
  have htm : ((w : Int) + i).tmod ((w : Int)) = ((w : Int) + i) % ((w : Int)) :=
    Int.tmod_eq_emod (by omega) (by omega)
  have hadd : ((w : Int) + i) % ((w : Int)) = i % ((w : Int)) := by
    have hrw : (w : Int) + i = i + ((w : Int)) * 1 := by ring
    rw [hrw, Int.add_mul_emod_self_left]
  have hr0 : 0 ≤ i % ((w : Int)) := Int.emod_nonneg _ (by omega)
  have hrlt : i % ((w : Int)) < ((w : Int)) := Int.emod_lt_of_pos _ (by omega)
  constructor
  · unfold wrap_for_size
    rw [hsw, hsum, htm, hadd, Int.emod_eq_of_lt hr0 (by omega)]
  · omega

/-- The wrapped coordinate computed by `inject_random_cells` for a u16
center `x`, a dimension bounded away from i32 overflow, and an offset from
the `-size..size` iterator with `size` at most the dimension, is the
floor-modulo wrap of `x + d` and is in range. -/
theorem inject_wrap_eq (x w : Nat) (size d : Int) (hx : x ≤ 65535)
    (hs : 0 < size) (hsw : size ≤ (w : Int)) (hwB : w ≤ 1073676288)
    (hd : d ∈ deltaRange size) :
    wrap_for_size (toI32 ((x : Int) + d)) w = (((x : Int) + d) % ((w : Int))).toNat ∧
    (((x : Int) + d) % ((w : Int))).toNat < w := by
  obtain ⟨hd1, hd2⟩ := deltaRange_mem hd
  have hw0 : 0 < w := by omega
  have ht : toI32 ((x : Int) + d) = (x : Int) + d :=
    toI32_eq_self _ (by omega) (by omega)
  rw [ht]
  exact wrap_for_size_eq_emod _ _ hw0 (by omega) (by omega) (by omega)

/-- Evaluation of one inner-loop step of `inject_random_cells` when the
wrapped target index is in range. -/
theorem injectStep_eval (rand : Nat → Cell) (row colOff : Nat)
    (v : Universe) (k : Nat) (rd : Int) (tgt : Nat)
    (hwrap : wrap_for_size (toI32 ((row : Int) + rd)) v.height = tgt)
    (hlt32 : tgt * v.width + colOff < u32Mod)
    (hidx : tgt * v.width + colOff < v.cells.length) :
    injectStep rand row colOff (v, k) rd
      = some (Universe.mk v.width v.height
          (v.cells.set (tgt * v.width + colOff) (rand k)), k + 1) := by
  have hstep : injectStep rand row colOff (v, k) rd
      = if v.getIndex (wrap_for_size (toI32 ((row : Int) + rd)) v.height) colOff
          < v.cells.length then
          some (Universe.mk v.width v.height
            (v.cells.set
              (v.getIndex (wrap_for_size (toI32 ((row : Int) + rd)) v.height) colOff)
              (rand k)), k + 1)
        else none := rfl
  have hg : v.getIndex tgt colOff = tgt * v.width + colOff := Nat.mod_eq_of_lt hlt32
  rw [hstep, hwrap, hg, if_pos hidx]

/-- Characterization of the inner loop of `inject_random_cells`: it
succeeds, preserves the dimensions and the cell count, leaves every
position outside the wrapped column stripe unchanged, and stores a value of
the random source at every wrapped target of the stripe. -/
theorem inject_inner (rand : Nat → Cell) (row colOff : Nat)
    (W H N : Nat) (hN : N = W * H) (hN32 : N < u32Mod) (hcolOff : colOff < W)
    (F : Int → Nat) :
    ∀ (rds : List Int),
      (∀ rd ∈ rds, wrap_for_size (toI32 ((row : Int) + rd)) H = F rd ∧ F rd < H) →
      ∀ (v : Universe) (k : Nat), v.width = W → v.height = H → v.cells.length = N →
      ∃ (v2 : Universe) (k2 : Nat),
        rds.foldlM (injectStep rand row colOff) ((v, k) : Universe × Nat)
          = some (v2, k2) ∧
        v2.width = W ∧ v2.height = H ∧ v2.cells.length = N ∧
        (∀ j : Nat, (∀ rd ∈ rds, j ≠ F rd * W + colOff) →
          v2.cells.get? j = v.cells.get? j) ∧
        (∀ rd ∈ rds, ∃ m, v2.cells.get? (F rd * W + colOff) = some (rand m)) := by
  intro rds
  induction rds with
  | nil =>
    intro _ v k hv1 hv2 hv3
    exact ⟨v, k, rfl, hv1, hv2, hv3, fun j _ => rfl, fun rd hrd => absurd hrd (by simp)⟩
  | cons rd rest ih =>
    intro hF v k hv1 hv2 hv3
    have hFrd := hF rd (List.mem_cons_self _ _)
    have htgt_lt : F rd * W + colOff < N := by
      have h1 : (F rd + 1) * W ≤ H * W := Nat.mul_le_mul_right W hFrd.2
      have h2 : (F rd + 1) * W = F rd * W + W := by ring
      have h3 : H * W = W * H := Nat.mul_comm _ _
      omega
    have hstep := injectStep_eval rand row colOff v k rd (F rd)
      (by rw [hv2]; exact hFrd.1)
      (by rw [hv1]; omega)
      (by rw [hv1, hv3]; exact htgt_lt)
    set v1 : Universe := Universe.mk v.width v.height
      (v.cells.set (F rd * v.width + colOff) (rand k)) with hv1def
    obtain ⟨v2, k2, hfold, hw2, hh2, hl2, huntouched, hcovered⟩ :=
      ih (fun rd2 hrd2 => hF rd2 (List.mem_cons_of_mem _ hrd2)) v1 (k + 1)
        (by rw [hv1def]; exact hv1)
        (by rw [hv1def]; exact hv2)
        (by rw [hv1def]; show (v.cells.set _ _).length = N; rw [List.length_set]; exact hv3)
    refine ⟨v2, k2, ?_, hw2, hh2, hl2, ?_, ?_⟩
    · rw [List.foldlM_cons, hstep]
      exact hfold
    · intro j hj
      have hj1 : v2.cells.get? j = v1.cells.get? j :=
        huntouched j (fun rd2 hrd2 => hj rd2 (List.mem_cons_of_mem _ hrd2))
      rw [hj1, hv1def]
      show (v.cells.set (F rd * v.width + colOff) (rand k)).get? j = v.cells.get? j
      refine List.get?_set_ne _ _ ?_
      rw [hv1]
      exact fun h => hj rd (List.mem_cons_self _ _) h.symm
    · intro rd2 hrd2
      rcases List.mem_cons.mp hrd2 with hhead | htail
      · subst hhead
        by_cases hrep : ∃ rd3 ∈ rest, F rd3 * W + colOff = F rd2 * W + colOff
        · obtain ⟨rd3, hrd3, heq3⟩ := hrep
          obtain ⟨m, hm⟩ := hcovered rd3 hrd3
          exact ⟨m, by rw [← heq3]; exact hm⟩
        · push_neg at hrep
          have hout : v2.cells.get? (F rd2 * W + colOff) = v1.cells.get? (F rd2 * W + colOff) :=
            huntouched _ (fun rd3 hrd3 => fun h => hrep rd3 hrd3 h.symm)
          refine ⟨k, ?_⟩
          rw [hout, hv1def]
          show (v.cells.set (F rd2 * v.width + colOff) (rand k)).get? (F rd2 * W + colOff)
            = some (rand k)
          rw [hv1]
          exact List.get?_set_eq_of_lt _ (by rw [hv3]; exact htgt_lt)
      · exact hcovered rd2 htail

/-- Characterization of the full nested loop of `inject_random_cells`: it
succeeds, preserves dimensions and cell count, leaves every non-target
position unchanged, and stores values of the random source at all wrapped
targets. -/
theorem inject_outer (rand : Nat → Cell) (row col : Nat)
    (W H N : Nat) (hN : N = W * H) (hN32 : N < u32Mod)
    (F G : Int → Nat) (rds : List Int)
    (hF : ∀ rd ∈ rds, wrap_for_size (toI32 ((row : Int) + rd)) H = F rd ∧ F rd < H) :
    ∀ (cds : List Int),
      (∀ cd ∈ cds, wrap_for_size (toI32 ((col : Int) + cd)) W = G cd ∧ G cd < W) →
      ∀ (v : Universe) (k : Nat), v.width = W → v.height = H → v.cells.length = N →
      ∃ (v2 : Universe) (k2 : Nat),
        cds.foldlM (fun (st : Universe × Nat) cd =>
            rds.foldlM
              (injectStep rand row (wrap_for_size (toI32 ((col : Int) + cd)) st.1.width))
              st) ((v, k) : Universe × Nat) = some (v2, k2) ∧
        v2.width = W ∧ v2.height = H ∧ v2.cells.length = N ∧
        (∀ j : Nat, (∀ cd ∈ cds, ∀ rd ∈ rds, j ≠ F rd * W + G cd) →
          v2.cells.get? j = v.cells.get? j) ∧
        (∀ cd ∈ cds, ∀ rd ∈ rds, ∃ m,
          v2.cells.get? (F rd * W + G cd) = some (rand m)) := by
  intro cds
  induction cds with
  | nil =>
    intro _ v k hv1 hv2 hv3
    exact ⟨v, k, rfl, hv1, hv2, hv3, fun j _ => rfl, fun cd hcd => absurd hcd (by simp)⟩
  | cons cd rest ih =>
    intro hG v k hv1 hv2 hv3
    have hGcd := hG cd (List.mem_cons_self _ _)
    obtain ⟨v1, k1, hfold1, hw1, hh1, hl1, huntouched1, hcovered1⟩ :=
      inject_inner rand row (G cd) W H N hN hN32 hGcd.2 F rds hF v k hv1 hv2 hv3
    obtain ⟨v2, k2, hfold2, hw2, hh2, hl2, huntouched2, hcovered2⟩ :=
      ih (fun cd2 hcd2 => hG cd2 (List.mem_cons_of_mem _ hcd2)) v1 k1 hw1 hh1 hl1
    refine ⟨v2, k2, ?_, hw2, hh2, hl2, ?_, ?_⟩
    · rw [List.foldlM_cons]
      have hbody : rds.foldlM
          (injectStep rand row (wrap_for_size (toI32 ((col : Int) + cd))
            (((v, k) : Universe × Nat)).1.width)) ((v, k) : Universe × Nat)
          = some (v1, k1) := by
        show rds.foldlM
          (injectStep rand row (wrap_for_size (toI32 ((col : Int) + cd)) v.width))
          ((v, k) : Universe × Nat) = some (v1, k1)
        rw [hv1, hGcd.1]
        exact hfold1
      rw [hbody]
      exact hfold2
    · intro j hj
      have h2 : v2.cells.get? j = v1.cells.get? j :=
        huntouched2 j (fun cd2 hcd2 rd2 hrd2 =>
          hj cd2 (List.mem_cons_of_mem _ hcd2) rd2 hrd2)
      rw [h2]
      exact huntouched1 j (fun rd2 hrd2 => hj cd (List.mem_cons_self _ _) rd2 hrd2)
    · intro cd2 hcd2 rd2 hrd2
      rcases List.mem_cons.mp hcd2 with hhead | htail
      · subst hhead
        by_cases hrep : ∃ cd3 ∈ rest, ∃ rd3 ∈ rds,
          F rd3 * W + G cd3 = F rd2 * W + G cd2
        · obtain ⟨cd3, hcd3, rd3, hrd3, heq3⟩ := hrep
          obtain ⟨m, hm⟩ := hcovered2 cd3 hcd3 rd3 hrd3
          exact ⟨m, by rw [← heq3]; exact hm⟩
        · push_neg at hrep
          have hout : v2.cells.get? (F rd2 * W + G cd2)
              = v1.cells.get? (F rd2 * W + G cd2) :=
            huntouched2 _ (fun cd3 hcd3 rd3 hrd3 =>
              fun h => hrep cd3 hcd3 rd3 hrd3 h.symm)
          rw [hout]
          exact hcovered1 rd2 hrd2
      · exact hcovered2 cd2 htail rd2 hrd2

/-- Claim C6 counterexample: with `size = 5` on the well-formed 2 × 2 grid and
center `(0, 0)` (positive dimensions, `size > 0`), the offset `-5` is *not*
mapped by floor modulo: `wrap_for_size` feeds the negative value `2 - 5 = -3`
to Rust's truncating `%`, getting `-1`, whose `as u32` cast is `4294967295`
— far outside `[0, 2)` (floor modulo would give `1`) — and the call then
panics on the out-of-range flat index instead of assigning the wrapped
target cells. -/
theorem inject_random_cells_truncating_wrap :
    wrap_for_size (toI32 ((0 : Int) + (-5))) 2 = 4294967295 ∧
    ((((0 : Int) + (-5)) % ((2 : Nat) : Int)).toNat = 1) ∧
    (Universe.mk 2 2 [Cell.Dead, Cell.Dead, Cell.Dead, Cell.Dead]).injectRandomCells
        (fun _ => Cell.Dead) 0 0 5 = none :=
  ⟨by decide, by decide, by decide⟩

/-- Claim C6 amended: for `0 < size ≤ min(width, height)`, u16 center
coordinates, and dimensions at most `2^30 - 2^16` (so that the i32
arithmetic inside `wrap_for_size` cannot overflow and its truncating `%`
only ever sees non-negative operands), every offset `(dr, dc)` with
`dr, dc ∈ [-size, size)` is mapped to the floor-modulo wrapped coordinate
`(center + offset) mod dimension ∈ [0, dimension)`; the call succeeds,
exactly the wrapped target cells are assigned freshly drawn values of the
random source, and every other cell (and the dimensions) are unchanged. -/
theorem inject_random_cells_amended (u : Universe) (rand : Nat → Cell)
    (row col : Nat) (size : Int) (hwf : u.wf) (hrow : row ≤ 65535)
    (hcol : col ≤ 65535) (hs : 0 < size) (hsw : size ≤ ((u.width : Int)))
    (hsh : size ≤ ((u.height : Int))) (hwB : u.width ≤ 1073676288)
    (hhB : u.height ≤ 1073676288) :
    (∀ d ∈ deltaRange size,
      (wrap_for_size (toI32 ((col : Int) + d)) u.width
          = (((col : Int) + d) % ((u.width : Int))).toNat ∧
        (((col : Int) + d) % ((u.width : Int))).toNat < u.width) ∧
      (wrap_for_size (toI32 ((row : Int) + d)) u.height
          = (((row : Int) + d) % ((u.height : Int))).toNat ∧
        (((row : Int) + d) % ((u.height : Int))).toNat < u.height)) ∧
    ∃ v : Universe, u.injectRandomCells rand row col size = some v ∧
      v.width = u.width ∧ v.height = u.height ∧
      v.cells.length = u.cells.length ∧
      (∀ j : Nat, ¬ injectTarget u row col size j →
        v.cells.get? j = u.cells.get? j) ∧
      (∀ j : Nat, injectTarget u row col size j →
        ∃ m, v.cells.get? j = some (rand m)) := by
  have hwrapc : ∀ d ∈ deltaRange size,
      wrap_for_size (toI32 ((col : Int) + d)) u.width
        = (((col : Int) + d) % ((u.width : Int))).toNat ∧
      (((col : Int) + d) % ((u.width : Int))).toNat < u.width :=
    fun d hd => inject_wrap_eq col u.width size d hcol hs hsw hwB hd
  have hwrapr : ∀ d ∈ deltaRange size,
      wrap_for_size (toI32 ((row : Int) + d)) u.height
        = (((row : Int) + d) % ((u.height : Int))).toNat ∧
      (((row : Int) + d) % ((u.height : Int))).toNat < u.height :=
    fun d hd => inject_wrap_eq row u.height size d hrow hs hsh hhB hd
  refine ⟨fun d hd => ⟨hwrapc d hd, hwrapr d hd⟩, ?_⟩
  obtain ⟨v2, k2, hfold, hw2, hh2, hl2, huntouched, hcovered⟩ :=
    inject_outer rand row col u.width u.height u.cells.length hwf.1
      (by rw [hwf.1]; exact hwf.2)
      (fun rd => (((row : Int) + rd) % ((u.height : Int))).toNat)
      (fun cd => (((col : Int) + cd) % ((u.width : Int))).toNat)
      (deltaRange size) hwrapr (deltaRange size) hwrapc u 0 rfl rfl rfl
  refine ⟨v2, ?_, hw2, hh2, hl2, ?_, ?_⟩
  · unfold Universe.injectRandomCells
    rw [hfold]
    rfl
  · intro j hj
    refine huntouched j ?_
    intro cd hcd rd hrd hje
    exact hj ⟨cd, hcd, rd, hrd, hje⟩
  · intro j hj
    obtain ⟨cd, hcd, rd, hrd, hje⟩ := hj
    rw [hje]
    exact hcovered cd hcd rd hrd

/-- Witness for `inject_random_cells_amended` on a concrete well-formed
4 × 4 grid with `size = 1` and center `(0, 0)`. -/
theorem inject_random_cells_amended_witness :
    Universe.wf (Universe.mk 4 4 (List.replicate 16 Cell.Dead)) ∧ (0 : Int) < 1 ∧
    (∃ v : Universe,
      (Universe.mk 4 4 (List.replicate 16 Cell.Dead)).injectRandomCells
          (fun _ => Cell.Alive) 0 0 1 = some v ∧
      v.width = 4 ∧ v.height = 4 ∧ v.cells.length = 16 ∧
      (∀ j : Nat, ¬ injectTarget (Universe.mk 4 4 (List.replicate 16 Cell.Dead)) 0 0 1 j →
        v.cells.get? j = (Universe.mk 4 4 (List.replicate 16 Cell.Dead)).cells.get? j) ∧
      (∀ j : Nat, injectTarget (Universe.mk 4 4 (List.replicate 16 Cell.Dead)) 0 0 1 j →
        ∃ m : Nat, v.cells.get? j = some Cell.Alive)) :=
  ⟨by decide, by decide,
   (inject_random_cells_amended (Universe.mk 4 4 (List.replicate 16 Cell.Dead))
     (fun _ => Cell.Alive) 0 0 1 (by decide) (by decide) (by decide) (by decide)
     (by decide) (by decide) (by decide) (by decide)).2⟩

end WasmLife
